import Mathlib

/-!
Verification of the notifai quota-projection core.

The Rust sources under `src-tauri/src` are embedded shallowly:

* time quantities are modelled in whole seconds (`ℤ`), matching the
  `num_seconds` granularity the code computes with;
* floating-point percentages are modelled exactly in `ℚ` (the code performs
  a single multiplication/division per projection, so the exact-arithmetic
  model mirrors the branch structure of the source);
* the ambient clock `Local::now()` is passed explicitly as a parameter.
-/

namespace Notifai

/-- `BudgetStatus` from `projection.rs`. -/
inductive BudgetStatus where
  | UnderBudget
  | OnTrack
  | OverBudget
  | Unknown
deriving DecidableEq, Repr

/-- `PeriodType` from `projection.rs`. -/
inductive PeriodType where
  | Session
  | Weekly
deriving DecidableEq, Repr

/-- `PeriodType::duration`, in seconds (`Duration::hours(5)` / `Duration::days(7)`). -/
def PeriodType.duration : PeriodType → ℤ
  | .Session => 5 * 3600
  | .Weekly => 7 * 86400

/-- `ProjectedUsage` from `projection.rs`. -/
structure ProjectedUsage where
  current_percent : ℚ
  projected_percent : ℚ
  status : BudgetStatus
  time_remaining_secs : ℤ
deriving DecidableEq, Repr

/-- `calculate_projection` from `projection.rs`, with `Local::now()` passed
explicitly as `now` (seconds since epoch; `reset_time` likewise). -/
def calculate_projection (current_percent : ℚ) (reset_time : ℤ) (now : ℤ)
    (period_type : PeriodType)
    (threshold_under_budget threshold_over_budget : ℚ) : ProjectedUsage :=
  let period_duration := period_type.duration
  let period_start := reset_time - period_duration
  let time_elapsed := now - period_start
  let time_remaining := reset_time - now
  -- Edge case: near reset (< 5 minutes remaining)
  if time_remaining < 5 * 60 then
    let status := if current_percent ≤ 100 then BudgetStatus.UnderBudget
      else BudgetStatus.OverBudget
    { current_percent := current_percent
      projected_percent := current_percent
      status := status
      time_remaining_secs := max time_remaining 0 }
  -- Edge case: zero usage
  else if current_percent = 0 then
    if (time_elapsed : ℚ) / (period_duration : ℚ) < 1 / 10 then
      { current_percent := current_percent
        projected_percent := 0
        status := BudgetStatus.Unknown
        time_remaining_secs := time_remaining }
    else
      { current_percent := current_percent
        projected_percent := 0
        status := BudgetStatus.UnderBudget
        time_remaining_secs := time_remaining }
  -- Avoid division by zero
  else if time_elapsed ≤ 0 then
    { current_percent := current_percent
      projected_percent := current_percent
      status := BudgetStatus.Unknown
      time_remaining_secs := time_remaining }
  else
    -- Normal projection: linear extrapolation
    let projected_percent :=
      current_percent * (period_duration : ℚ) / ((time_elapsed : ℤ) : ℚ)
    let status := if projected_percent < threshold_under_budget then
        BudgetStatus.UnderBudget
      else if projected_percent ≤ threshold_over_budget then BudgetStatus.OnTrack
      else BudgetStatus.OverBudget
    { current_percent := current_percent
      projected_percent := projected_percent
      status := status
      time_remaining_secs := time_remaining }

lemma PeriodType.duration_pos (pt : PeriodType) : 0 < pt.duration := by
  cases pt <;> decide

/-- In the normal regime (≥ 5 minutes remaining, positive elapsed time,
nonnegative percent) the projected percent is exactly
`current_percent * period / elapsed`, the zero-usage branch included. -/
lemma calculate_projection_formula (p : ℚ) (reset now : ℤ) (pt : PeriodType)
    (thU thO : ℚ) (hp0 : 0 ≤ p) (hrem : 300 ≤ reset - now)
    (hel : 0 < now - (reset - pt.duration)) :
    (calculate_projection p reset now pt thU thO).projected_percent
      = p * (pt.duration : ℚ) / ((now - (reset - pt.duration) : ℤ) : ℚ) := by
  unfold calculate_projection
  rw [if_neg (by omega : ¬ reset - now < 5 * 60)]
  by_cases hp : p = 0
  · subst hp
    rw [if_pos rfl]
    split <;> simp
  · rw [if_neg hp, if_neg (by omega : ¬ now - (reset - pt.duration) ≤ 0)]

/-- C1: with `percent ∈ [0,100]`, at least the 5-minute guard remaining and
strictly positive elapsed time, `calculate_projection` returns
`projected = percent * (period / elapsed)`; the projected value is monotone
increasing in the percent, monotone increasing in the period length (elapsed
time held equal), and monotone decreasing in the elapsed time. -/
theorem calculate_projection_linear_and_monotone (p : ℚ) (reset now : ℤ)
    (pt : PeriodType) (thU thO : ℚ) (hp0 : 0 ≤ p) (_hp100 : p ≤ 100)
    (hrem : 300 ≤ reset - now) (hel : 0 < now - (reset - pt.duration)) :
    (calculate_projection p reset now pt thU thO).projected_percent
        = p * (pt.duration : ℚ) / ((now - (reset - pt.duration) : ℤ) : ℚ)
      ∧ (∀ p' : ℚ, p ≤ p' → p' ≤ 100 →
          (calculate_projection p reset now pt thU thO).projected_percent
            ≤ (calculate_projection p' reset now pt thU thO).projected_percent)
      ∧ (∀ (pt' : PeriodType) (reset' : ℤ), pt.duration ≤ pt'.duration →
          now - (reset' - pt'.duration) = now - (reset - pt.duration) →
          (calculate_projection p reset now pt thU thO).projected_percent
            ≤ (calculate_projection p reset' now pt' thU thO).projected_percent)
      ∧ (∀ reset'' : ℤ, 0 < now - (reset'' - pt.duration) →
          now - (reset'' - pt.duration) ≤ now - (reset - pt.duration) →
          (calculate_projection p reset now pt thU thO).projected_percent
            ≤ (calculate_projection p reset'' now pt thU thO).projected_percent) := by
  have hd := pt.duration_pos
  have helq : (0 : ℚ) < ((now - (reset - pt.duration) : ℤ) : ℚ) := by
    exact_mod_cast hel
  refine ⟨calculate_projection_formula p reset now pt thU thO hp0 hrem hel, ?_, ?_, ?_⟩
  · intro p' hpp' hp100'
    rw [calculate_projection_formula p reset now pt thU thO hp0 hrem hel,
      calculate_projection_formula p' reset now pt thU thO (hp0.trans hpp') hrem hel]
    gcongr
  · intro pt' reset' hdd h
    have hd' := pt'.duration_pos
    have hrem' : 300 ≤ reset' - now := by omega
    have hel' : 0 < now - (reset' - pt'.duration) := by omega
    rw [calculate_projection_formula p reset now pt thU thO hp0 hrem hel,
      calculate_projection_formula p reset' now pt' thU thO hp0 hrem' hel', h]
    gcongr
  · intro reset'' hel'' hle
    have hrem'' : 300 ≤ reset'' - now := by omega
    have helq'' : (0 : ℚ) < ((now - (reset'' - pt.duration) : ℤ) : ℚ) := by
      exact_mod_cast hel''
    rw [calculate_projection_formula p reset now pt thU thO hp0 hrem hel,
      calculate_projection_formula p reset'' now pt thU thO hp0 hrem'' hel'']
    have hnum : 0 ≤ p * (pt.duration : ℚ) := by positivity
    apply div_le_div_of_nonneg_left hnum helq''
    exact_mod_cast hle

theorem calculate_projection_linear_and_monotone_witness :
    (calculate_projection 20 7200 0 PeriodType.Session 85 115).projected_percent
      = 100 / 3 := by
  have h := (calculate_projection_linear_and_monotone 20 7200 0 PeriodType.Session
    85 115 (by norm_num) (by norm_num) (by decide) (by decide)).1
  rw [h]
  norm_num [PeriodType.duration]

/-- C2: with elapsed time ≤ 0 (reset a full period or more away) the result is
always status `Unknown` with `projected_percent` equal to the current percent,
for every current percent including 0. -/
theorem calculate_projection_nonpos_elapsed_unknown (p : ℚ) (reset now : ℤ)
    (pt : PeriodType) (thU thO : ℚ)
    (hel : now - (reset - pt.duration) ≤ 0) :
    (calculate_projection p reset now pt thU thO).status = BudgetStatus.Unknown
      ∧ (calculate_projection p reset now pt thU thO).projected_percent = p := by
  have hd : (300 : ℤ) < pt.duration := by cases pt <;> decide
  have hrem : ¬ reset - now < 5 * 60 := by omega
  unfold calculate_projection
  rw [if_neg hrem]
  by_cases hp : p = 0
  · subst hp
    rw [if_pos rfl]
    have helq : ((now - (reset - pt.duration) : ℤ) : ℚ) ≤ 0 := by exact_mod_cast hel
    have hdq : (0 : ℚ) < ((pt.duration : ℤ) : ℚ) := by exact_mod_cast hd.trans_le' (by norm_num)
    rw [if_pos (lt_of_le_of_lt (div_nonpos_of_nonpos_of_nonneg helq hdq.le) (by norm_num))]
    exact ⟨rfl, rfl⟩
  · rw [if_neg hp, if_pos hel]
    exact ⟨rfl, rfl⟩

theorem calculate_projection_nonpos_elapsed_unknown_witness :
    (calculate_projection 50 18000 0 PeriodType.Session 85 115).status
        = BudgetStatus.Unknown
      ∧ (calculate_projection 50 18000 0 PeriodType.Session 85 115).projected_percent
        = 50 :=
  calculate_projection_nonpos_elapsed_unknown 50 18000 0 PeriodType.Session 85 115
    (by decide)

/-- C3: with under 5 minutes remaining the projected percent equals the current
percent and the status is a pure over/under split at the 100 line, the
configured thresholds being ignored entirely. -/
theorem calculate_projection_near_reset (p : ℚ) (reset now : ℤ) (pt : PeriodType)
    (thU thO thU' thO' : ℚ) (hrem : reset - now < 300) :
    (calculate_projection p reset now pt thU thO).projected_percent = p
      ∧ (calculate_projection p reset now pt thU thO).status
        = (if p ≤ 100 then BudgetStatus.UnderBudget else BudgetStatus.OverBudget)
      ∧ calculate_projection p reset now pt thU thO
        = calculate_projection p reset now pt thU' thO' := by
  have hc : reset - now < 5 * 60 := by omega
  unfold calculate_projection
  rw [if_pos hc, if_pos hc]
  exact ⟨rfl, rfl, rfl⟩

theorem calculate_projection_near_reset_witness :
    (calculate_projection 120 100 0 PeriodType.Session 85 115).projected_percent
        = 120
      ∧ (calculate_projection 120 100 0 PeriodType.Session 85 115).status
        = BudgetStatus.OverBudget
      ∧ calculate_projection 120 100 0 PeriodType.Session 85 115
        = calculate_projection 120 100 0 PeriodType.Session 50 60 := by
  have h := calculate_projection_near_reset 120 100 0 PeriodType.Session 85 115 50 60
    (by decide)
  refine ⟨h.1, ?_, h.2.2⟩
  rw [h.2.1]
  norm_num

/-- C4: with zero current percent and the guard satisfied, the status is
`Unknown` when less than 10% of the period has elapsed and `UnderBudget`
otherwise, the projected percent being 0 in both cases. -/
theorem calculate_projection_zero_usage (reset now : ℤ) (pt : PeriodType)
    (thU thO : ℚ) (hrem : 300 ≤ reset - now) :
    (((now - (reset - pt.duration) : ℤ) : ℚ) / ((pt.duration : ℤ) : ℚ) < 1 / 10 →
        (calculate_projection 0 reset now pt thU thO).status = BudgetStatus.Unknown)
      ∧ (¬ ((now - (reset - pt.duration) : ℤ) : ℚ) / ((pt.duration : ℤ) : ℚ) < 1 / 10 →
        (calculate_projection 0 reset now pt thU thO).status = BudgetStatus.UnderBudget)
      ∧ (calculate_projection 0 reset now pt thU thO).projected_percent = 0 := by
  unfold calculate_projection
  rw [if_neg (show ¬ reset - now < 5 * 60 by omega), if_pos rfl]
  refine ⟨fun hr => ?_, fun hr => ?_, ?_⟩
  · rw [if_pos hr]
  · rw [if_neg hr]
  · split <;> rfl

theorem calculate_projection_zero_usage_witness :
    (calculate_projection 0 18000 17000 PeriodType.Session 85 115).status
        = BudgetStatus.UnderBudget
      ∧ (calculate_projection 0 18000 17000 PeriodType.Session 85 115).projected_percent
        = 0 := by
  have h := calculate_projection_zero_usage 18000 17000 PeriodType.Session 85 115
    (by decide)
  exact ⟨h.2.1 (by norm_num [PeriodType.duration]), h.2.2⟩

/-- C10: the returned `time_remaining_secs` is never negative: the near-reset
branch clamps it with `max 0`, and every other branch is only reached when at
least the 5-minute guard remains. -/
theorem calculate_projection_time_remaining_nonneg (p : ℚ) (reset now : ℤ)
    (pt : PeriodType) (thU thO : ℚ) :
    0 ≤ (calculate_projection p reset now pt thU thO).time_remaining_secs := by
  unfold calculate_projection
  by_cases h : reset - now < 5 * 60
  · rw [if_pos h]
    exact le_max_right _ _
  · rw [if_neg h]
    have hr : (0 : ℤ) ≤ reset - now := by omega
    by_cases hp : p = 0
    · rw [if_pos hp]
      split <;> exact hr
    · rw [if_neg hp]
      split <;> [exact hr; exact hr]

/-- `QuotaProjection` from `projection.rs`. -/
structure QuotaProjection where
  session : Option ProjectedUsage
  week_all : Option ProjectedUsage
  week_sonnet : Option ProjectedUsage
deriving DecidableEq, Repr

/-- The ranking used by `worst_status`'s `max_by_key`. -/
def BudgetStatus.rank : BudgetStatus → Nat
  | .OverBudget => 3
  | .OnTrack => 2
  | .UnderBudget => 1
  | .Unknown => 0

/-- The statuses of the present (non-`None`) per-quota projections, in the
field order the source iterates. -/
def QuotaProjection.presentStatuses (q : QuotaProjection) : List BudgetStatus :=
  ([q.session, q.week_all, q.week_sonnet].filterMap id).map ProjectedUsage.status

/-- One step of the `max_by_key` computation (ties keep the later element,
as Rust's `max_by_key` does). -/
def worstStep (acc s : BudgetStatus) : BudgetStatus :=
  if acc.rank ≤ s.rank then s else acc

/-- `QuotaProjection::worst_status`: maximum of the present statuses by
`rank`, `Unknown` when no quota is present.  `Unknown` has the least rank, so
folding from it computes exactly `max_by_key(..).unwrap_or(Unknown)`. -/
def QuotaProjection.worst_status (q : QuotaProjection) : BudgetStatus :=
  q.presentStatuses.foldl worstStep BudgetStatus.Unknown

lemma rank_le_foldl_worstStep (l : List BudgetStatus) (acc : BudgetStatus) :
    acc.rank ≤ (l.foldl worstStep acc).rank := by
  induction l generalizing acc with
  | nil => exact le_rfl
  | cons s l ih =>
    refine le_trans ?_ (ih (worstStep acc s))
    unfold worstStep
    split
    · assumption
    · exact le_rfl

lemma foldl_worstStep_mem (l : List BudgetStatus) (acc : BudgetStatus) :
    l.foldl worstStep acc = acc ∨ l.foldl worstStep acc ∈ l := by
  induction l generalizing acc with
  | nil => exact Or.inl rfl
  | cons s l ih =>
    rcases ih (worstStep acc s) with h | h
    · rw [List.foldl_cons, h]
      unfold worstStep
      split
      · exact Or.inr (List.mem_cons_self _ _)
      · exact Or.inl rfl
    · exact Or.inr (List.mem_cons_of_mem _ h)

lemma foldl_worstStep_ub (l : List BudgetStatus) (acc : BudgetStatus) :
    ∀ s ∈ l, s.rank ≤ (l.foldl worstStep acc).rank := by
  induction l generalizing acc with
  | nil => intro s hs; cases hs
  | cons t l ih =>
    intro s hs
    rcases List.mem_cons.mp hs with rfl | hs
    · refine le_trans ?_ (rank_le_foldl_worstStep l (worstStep acc s))
      unfold worstStep
      split
      · exact le_rfl
      · exact le_of_not_le (by assumption)
    · exact ih (worstStep acc t) s hs

/-- C5: `worst_status` is the maximum of the statuses of the present
projections under the order OverBudget > OnTrack > UnderBudget > Unknown: it
bounds every present status, it is itself present (or `Unknown`), any present
`OverBudget` dominates, all-`Unknown` collapses to `Unknown`, and no quotas
present yields `Unknown`. -/
theorem worst_status_is_max (q : QuotaProjection) :
    (∀ s ∈ q.presentStatuses, s.rank ≤ q.worst_status.rank)
      ∧ (q.worst_status ∈ q.presentStatuses
          ∨ q.worst_status = BudgetStatus.Unknown)
      ∧ (BudgetStatus.OverBudget ∈ q.presentStatuses →
          q.worst_status = BudgetStatus.OverBudget)
      ∧ ((∀ s ∈ q.presentStatuses, s = BudgetStatus.Unknown) →
          q.worst_status = BudgetStatus.Unknown)
      ∧ (q.presentStatuses = [] → q.worst_status = BudgetStatus.Unknown) := by
  have hub := foldl_worstStep_ub q.presentStatuses BudgetStatus.Unknown
  have hmem := foldl_worstStep_mem q.presentStatuses BudgetStatus.Unknown
  refine ⟨hub, hmem.symm, ?_, ?_, ?_⟩
  · intro hover
    have h3 : (3 : ℕ) ≤ q.worst_status.rank := hub _ hover
    revert h3
    generalize q.worst_status = w
    cases w <;> decide
  · intro hall
    rcases hmem with h | h
    · exact h
    · exact hall _ h
  · intro hnil
    unfold QuotaProjection.worst_status
    rw [hnil]
    rfl

/-- `QuotaType` from `notification.rs`. -/
inductive QuotaType where
  | Session
  | WeekAll
  | WeekSonnet
deriving DecidableEq, Repr

/-- `NotificationSeverity` from `notification.rs`. -/
inductive NotificationSeverity where
  | Approaching
  | OverBudget
deriving DecidableEq, Repr

/-- `NotificationState` from `notification.rs`; the `HashMap` is modelled as a
total function into `Option` (absent key ↦ `none`). -/
structure NotificationState where
  last_notifications : QuotaType × NotificationSeverity → Option ℤ

/-- `NotificationState::new` (the `Default` empty map). -/
def NotificationState.new : NotificationState := ⟨fun _ => none⟩

/-- `NotificationState::should_notify`. -/
def NotificationState.should_notify (st : NotificationState) (quota : QuotaType)
    (severity : NotificationSeverity) (reset_time : ℤ) : Bool :=
  match st.last_notifications (quota, severity) with
  | some last_reset_time => decide (last_reset_time ≠ reset_time)
  | none => true

/-- `NotificationState::record_notification` (`HashMap::insert`). -/
def NotificationState.record_notification (st : NotificationState)
    (quota : QuotaType) (severity : NotificationSeverity) (reset_time : ℤ) :
    NotificationState :=
  ⟨fun k => if k = (quota, severity) then some reset_time
    else st.last_notifications k⟩

/-- C6: `should_notify` is true for a key with no entry; after
`record_notification` it is false for the same reset instant and true again
for any different reset instant. -/
theorem notification_dedup (st : NotificationState) (quota : QuotaType)
    (severity : NotificationSeverity) (reset_time reset_time' : ℤ) :
    (st.last_notifications (quota, severity) = none →
        st.should_notify quota severity reset_time = true)
      ∧ (st.record_notification quota severity reset_time).should_notify
          quota severity reset_time = false
      ∧ (reset_time' ≠ reset_time →
          (st.record_notification quota severity reset_time).should_notify
            quota severity reset_time' = true) := by
  refine ⟨fun h => ?_, ?_, fun h => ?_⟩
  · unfold NotificationState.should_notify
    rw [h]
  · simp [NotificationState.should_notify, NotificationState.record_notification]
  · simp [NotificationState.should_notify, NotificationState.record_notification]
    exact fun hc => absurd hc.symm h

theorem notification_dedup_witness :
    (NotificationState.new.should_notify QuotaType.Session
        NotificationSeverity.Approaching 5 = true)
      ∧ ((NotificationState.new.record_notification QuotaType.Session
            NotificationSeverity.Approaching 5).should_notify QuotaType.Session
            NotificationSeverity.Approaching 5 = false)
      ∧ ((NotificationState.new.record_notification QuotaType.Session
            NotificationSeverity.Approaching 5).should_notify QuotaType.Session
            NotificationSeverity.Approaching 6 = true) := by
  have h := notification_dedup NotificationState.new QuotaType.Session
    NotificationSeverity.Approaching 5 6
  exact ⟨(notification_dedup NotificationState.new QuotaType.Session
      NotificationSeverity.Approaching 5 6).1 rfl,
    h.2.1, h.2.2 (by decide)⟩

/-- `NotificationInfo` from `notification.rs`. -/
structure NotificationInfo where
  quota_type : QuotaType
  severity : NotificationSeverity
  projected_percent : ℚ
  reset_time : ℤ
deriving DecidableEq, Repr

/-- The `check_quota` closure inside `check_notifications`, with `Local::now()`
passed explicitly; the pushes onto the `Vec` become a (0- or 1-element)
list. -/
def check_quota (state : NotificationState)
    (approaching_threshold over_budget_threshold : ℚ) (now : ℤ)
    (quota_type : QuotaType) (proj : Option ProjectedUsage) :
    List NotificationInfo :=
  match proj with
  | none => []
  | some p =>
    let reset_time := now + p.time_remaining_secs
    -- Check over budget - higher priority, check first
    if over_budget_threshold ≤ p.projected_percent then
      if state.should_notify quota_type NotificationSeverity.OverBudget
          reset_time then
        [{ quota_type := quota_type, severity := NotificationSeverity.OverBudget,
           projected_percent := p.projected_percent, reset_time := reset_time }]
      else []
    -- Check approaching
    else if approaching_threshold ≤ p.projected_percent then
      if state.should_notify quota_type NotificationSeverity.Approaching
          reset_time then
        [{ quota_type := quota_type, severity := NotificationSeverity.Approaching,
           projected_percent := p.projected_percent, reset_time := reset_time }]
      else []
    else []

/-- `check_notifications` from `notification.rs`: the three quotas are
examined in field order and their notifications concatenated. -/
def check_notifications (projection : QuotaProjection)
    (state : NotificationState)
    (approaching_threshold over_budget_threshold : ℚ) (now : ℤ) :
    List NotificationInfo :=
  check_quota state approaching_threshold over_budget_threshold now
      QuotaType.Session projection.session
    ++ check_quota state approaching_threshold over_budget_threshold now
      QuotaType.WeekAll projection.week_all
    ++ check_quota state approaching_threshold over_budget_threshold now
      QuotaType.WeekSonnet projection.week_sonnet

/-- The per-quota projection field examined for a given `QuotaType`. -/
def QuotaProjection.quotaField (projection : QuotaProjection) :
    QuotaType → Option ProjectedUsage
  | QuotaType.Session => projection.session
  | QuotaType.WeekAll => projection.week_all
  | QuotaType.WeekSonnet => projection.week_sonnet

lemma check_quota_quota_type (state : NotificationState) (aT oT : ℚ) (now : ℤ)
    (qt : QuotaType) (proj : Option ProjectedUsage) :
    ∀ n ∈ check_quota state aT oT now qt proj, n.quota_type = qt := by
  intro n hn
  cases proj with
  | none => cases hn
  | some p =>
    simp only [check_quota] at hn
    split at hn
    · split at hn
      · rw [List.mem_singleton.mp hn]
      · cases hn
    · split at hn
      · split at hn
        · rw [List.mem_singleton.mp hn]
        · cases hn
      · cases hn

/-- C7: severities are evaluated over-budget first.  For the quota `qt` with
present projection `p`, the notifications of a cycle restricted to `qt` are
exactly the one-quota check; at or above the over-budget threshold only an
`OverBudget` notification can appear (never `Approaching`), below it but at or
above the approaching threshold only `Approaching`, below both none, and a
single quota never yields more than one notification per cycle. -/
theorem check_notifications_over_budget_first (projection : QuotaProjection)
    (state : NotificationState) (aT oT : ℚ) (now : ℤ) (qt : QuotaType)
    (p : ProjectedUsage) (hp : projection.quotaField qt = some p) :
    (check_notifications projection state aT oT now).filter
        (fun n => n.quota_type == qt)
      = check_quota state aT oT now qt (some p)
    ∧ (check_quota state aT oT now qt (some p)).length ≤ 1
    ∧ (oT ≤ p.projected_percent →
        ∀ n ∈ check_quota state aT oT now qt (some p),
          n.severity = NotificationSeverity.OverBudget)
    ∧ (p.projected_percent < oT → aT ≤ p.projected_percent →
        ∀ n ∈ check_quota state aT oT now qt (some p),
          n.severity = NotificationSeverity.Approaching)
    ∧ (p.projected_percent < oT → p.projected_percent < aT →
        check_quota state aT oT now qt (some p) = []) := by
  have hdrop : ∀ (qt' : QuotaType) (proj' : Option ProjectedUsage), qt' ≠ qt →
      (check_quota state aT oT now qt' proj').filter
        (fun n => n.quota_type == qt) = [] := by
    intro qt' proj' hne
    refine List.filter_eq_nil_iff.mpr (fun n hn => ?_)
    rw [check_quota_quota_type state aT oT now qt' proj' n hn]
    simp [hne]
  have hkeep : ∀ proj' : Option ProjectedUsage,
      (check_quota state aT oT now qt proj').filter
        (fun n => n.quota_type == qt) = check_quota state aT oT now qt proj' :=
    fun proj' => List.filter_eq_self.mpr
      (fun n hn => beq_iff_eq.mpr (check_quota_quota_type _ _ _ _ _ _ n hn))
  refine ⟨?_, ?_, ?_, ?_, ?_⟩
  · cases qt with
    | Session =>
      simp only [QuotaProjection.quotaField] at hp
      unfold check_notifications
      rw [hp, List.filter_append, List.filter_append,
        hdrop QuotaType.WeekAll projection.week_all (by decide),
        hdrop QuotaType.WeekSonnet projection.week_sonnet (by decide)]
      simp only [List.append_nil, List.nil_append]
      exact hkeep (some p)
    | WeekAll =>
      simp only [QuotaProjection.quotaField] at hp
      unfold check_notifications
      rw [hp, List.filter_append, List.filter_append,
        hdrop QuotaType.Session projection.session (by decide),
        hdrop QuotaType.WeekSonnet projection.week_sonnet (by decide)]
      simp only [List.append_nil, List.nil_append]
      exact hkeep (some p)
    | WeekSonnet =>
      simp only [QuotaProjection.quotaField] at hp
      unfold check_notifications
      rw [hp, List.filter_append, List.filter_append,
        hdrop QuotaType.Session projection.session (by decide),
        hdrop QuotaType.WeekAll projection.week_all (by decide)]
      simp only [List.append_nil, List.nil_append]
      exact hkeep (some p)
  · simp only [check_quota]
    split
    · split <;> simp
    · split
      · split <;> simp
      · simp
  · intro hov n hn
    simp only [check_quota, if_pos hov] at hn
    split at hn
    · rw [List.mem_singleton.mp hn]
    · cases hn
  · intro hlt happ n hn
    simp only [check_quota, if_neg (not_le.mpr hlt), if_pos happ] at hn
    split at hn
    · rw [List.mem_singleton.mp hn]
    · cases hn
  · intro h1 h2
    simp only [check_quota]
    rw [if_neg (not_le.mpr h1), if_neg (not_le.mpr h2)]

theorem check_notifications_over_budget_first_witness :
    (check_quota NotificationState.new 100 115 0 QuotaType.Session
      (some ⟨150, 150, BudgetStatus.OverBudget, 1000⟩)).length ≤ 1 :=
  (check_notifications_over_budget_first
    ⟨some ⟨150, 150, BudgetStatus.OverBudget, 1000⟩, none, none⟩
    NotificationState.new 100 115 0 QuotaType.Session
    ⟨150, 150, BudgetStatus.OverBudget, 1000⟩ rfl).2.1

/-! ### Reset-time parsing (`parse_reset_time` in `projection.rs`)

The two regexes are embedded as explicit backtracking matchers over character
lists (alternatives tried in the greedy order the regex engine uses; the
maximal-munch character classes are followed by disjoint classes in both
patterns, so maximal runs are faithful).  The chrono calendar arithmetic is
embedded through civil-date/epoch-day conversions; instants are seconds since
the epoch, and the machine-local timezone offset of `Local::now()` is the
explicit parameter `localOff`. -/

/-- ASCII lowercasing; Rust `to_lowercase` restricted to the ASCII text the
parsers handle. -/
def asciiLower (c : Char) : Char :=
  if 'A' ≤ c ∧ c ≤ 'Z' then Char.ofNat (c.toNat + 32) else c

/-- Lowercase a whole string. -/
def lowerStr (s : String) : String := String.mk (s.data.map asciiLower)

/-- Regex `\d` (ASCII). -/
def isDigitChar (c : Char) : Bool := '0' ≤ c && c ≤ '9'

/-- Regex `\w` (ASCII portion, the only one exercised). -/
def isWordChar (c : Char) : Bool := c.isAlphanum || c = '_'

/-- Regex `\s`. -/
def isSpaceChar (c : Char) : Bool :=
  c = ' ' || c = '\t' || c = '\n' || c = '\r' || c = '\x0b' || c = '\x0c'

/-- Numeric value of an ASCII digit. -/
def digitVal (c : Char) : Nat := c.toNat - '0'.toNat

/-- Consume a literal character sequence. -/
def dropLit : List Char → List Char → Option (List Char)
  | [], cs => some cs
  | l :: ls, c :: cs => if c = l then dropLit ls cs else none
  | _ :: _, [] => none

/-- Regex `\s*`. -/
def dropSpaces : List Char → List Char
  | c :: cs => if isSpaceChar c then dropSpaces cs else c :: cs
  | [] => []

/-- Regex `\s+`. -/
def dropSpaces1 : List Char → Option (List Char)
  | c :: cs => if isSpaceChar c then some (dropSpaces cs) else none
  | [] => none

/-- Exactly two digits. -/
def digits2 : List Char → Option (Nat × List Char)
  | a :: b :: cs =>
    if isDigitChar a && isDigitChar b then
      some (digitVal a * 10 + digitVal b, cs)
    else none
  | _ => none

/-- Exactly one digit. -/
def digits1 : List Char → Option (Nat × List Char)
  | a :: cs => if isDigitChar a then some (digitVal a, cs) else none
  | [] => none

/-- Regex `(am|pm)`, returning the captured meridiem. -/
def dropAmPm (cs : List Char) : Option (String × List Char) :=
  match dropLit ['a', 'm'] cs with
  | some rest => some ("am", rest)
  | none =>
    match dropLit ['p', 'm'] cs with
    | some rest => some ("pm", rest)
    | none => none

/-- Regex `\s*\(([^)]+)\)`, returning the captured timezone name. -/
def dropTzParen (cs : List Char) : Option String :=
  match dropSpaces cs with
  | '(' :: rest =>
    let cap := rest.takeWhile (fun c => c ≠ ')')
    match rest.dropWhile (fun c => c ≠ ')') with
    | ')' :: _ => if cap.isEmpty then none else some (String.mk cap)
    | _ => none
  | _ => none

/-- Regex `(?::(\d{2}))?\s*(am|pm)\s*\(([^)]+)\)` after the hour digits; the
optional minutes group is tried first (greedy). -/
def matchTimeTail (cs : List Char) : Option (Option Nat × String × String) :=
  (match cs with
    | ':' :: cs2 =>
      match digits2 cs2 with
      | some (mins, cs3) =>
        match dropAmPm (dropSpaces cs3) with
        | some (ap, cs4) =>
          match dropTzParen cs4 with
          | some tz => some (some mins, ap, tz)
          | none => none
        | none => none
      | none => none
    | _ => none)
  <|>
  (match dropAmPm (dropSpaces cs) with
    | some (ap, cs4) =>
      match dropTzParen cs4 with
      | some tz => some (none, ap, tz)
      | none => none
    | none => none)

/-- The time-only pattern
`(\d{1,2})(?::(\d{2}))?\s*(am|pm)\s*\(([^)]+)\)` anchored at the current
position; the two-digit hour alternative is tried first (greedy `{1,2}`). -/
def matchTimeOnlyAt (cs : List Char) : Option (Nat × Option Nat × String × String) :=
  (match digits2 cs with
    | some (h, rest) => (matchTimeTail rest).map (fun r => (h, r.1, r.2.1, r.2.2))
    | none => none)
  <|>
  (match digits1 cs with
    | some (h, rest) => (matchTimeTail rest).map (fun r => (h, r.1, r.2.1, r.2.2))
    | none => none)

/-- Leftmost match of the time-only pattern (regex `captures`). -/
def findTimeOnly : List Char → Option (Nat × Option Nat × String × String)
  | [] => none
  | c :: cs =>
    match matchTimeOnlyAt (c :: cs) with
    | some r => some r
    | none => findTimeOnly cs

/-- Regex `\s+at\s+(\d{1,2})(?::(\d{2}))?\s*(am|pm)\s*\(([^)]+)\)` after the
day digits. -/
def matchFromDay (day : Nat) (cs : List Char) :
    Option (Nat × Nat × Option Nat × String × String) :=
  match dropSpaces1 cs with
  | none => none
  | some cs2 =>
    match dropLit ['a', 't'] cs2 with
    | none => none
    | some cs3 =>
      match dropSpaces1 cs3 with
      | none => none
      | some cs4 =>
        (match digits2 cs4 with
          | some (h, cs5) =>
            (matchTimeTail cs5).map (fun r => (day, h, r.1, r.2.1, r.2.2))
          | none => none)
        <|>
        (match digits1 cs4 with
          | some (h, cs5) =>
            (matchTimeTail cs5).map (fun r => (day, h, r.1, r.2.1, r.2.2))
          | none => none)

/-- The date+time pattern
`(\w+)\s+(\d{1,2})\s+at\s+(\d{1,2})(?::(\d{2}))?\s*(am|pm)\s*\(([^)]+)\)`
anchored at the current position. -/
def matchDateTimeAt (cs : List Char) :
    Option (String × Nat × Nat × Option Nat × String × String) :=
  let w := cs.takeWhile isWordChar
  if w.isEmpty then none
  else
    match dropSpaces1 (cs.dropWhile isWordChar) with
    | none => none
    | some cs2 =>
      (match digits2 cs2 with
        | some (d, cs3) => (matchFromDay d cs3).map (fun r => (String.mk w, r))
        | none => none)
      <|>
      (match digits1 cs2 with
        | some (d, cs3) => (matchFromDay d cs3).map (fun r => (String.mk w, r))
        | none => none)

/-- Leftmost match of the date+time pattern (regex `captures`). -/
def findDateTime : List Char → Option (String × Nat × Nat × Option Nat × String × String)
  | [] => none
  | c :: cs =>
    match matchDateTimeAt (c :: cs) with
    | some r => some r
    | none => findDateTime cs

/-- `to_24_hour` from `projection.rs`. -/
def to_24_hour (hour : Nat) (am_pm : String) : Nat :=
  match hour, lowerStr am_pm with
  | 12, "am" => 0
  | 12, "pm" => 12
  | h, "pm" => h + 12
  | h, _ => h

/-- `parse_month` from `projection.rs`. -/
def parse_month (month_str : String) : Option Nat :=
  match lowerStr month_str with
  | "jan" | "january" => some 1
  | "feb" | "february" => some 2
  | "mar" | "march" => some 3
  | "apr" | "april" => some 4
  | "may" => some 5
  | "jun" | "june" => some 6
  | "jul" | "july" => some 7
  | "aug" | "august" => some 8
  | "sep" | "september" => some 9
  | "oct" | "october" => some 10
  | "nov" | "november" => some 11
  | "dec" | "december" => some 12
  | _ => none

/-- Proleptic-Gregorian leap year, as chrono. -/
def isLeapYear (y : ℤ) : Bool := y % 4 == 0 && (y % 100 != 0 || y % 400 == 0)

/-- Length of a month (chrono `NaiveDate::from_ymd_opt` validity bound). -/
def daysInMonth (y : ℤ) (m : Nat) : Nat :=
  if m = 2 then (if isLeapYear y then 29 else 28)
  else if m = 4 ∨ m = 6 ∨ m = 9 ∨ m = 11 then 30
  else 31

/-- Days since 1970-01-01 of a civil date (Hinnant's `days_from_civil`, the
algorithm underlying chrono's calendar). -/
def daysFromCivil (y : ℤ) (m d : Nat) : ℤ :=
  let y' : ℤ := if m ≤ 2 then y - 1 else y
  let era : ℤ := y'.fdiv 400
  let yoe : ℤ := y' - era * 400
  let mp : ℤ := ((m : ℤ) + 9) % 12
  let doy : ℤ := (153 * mp + 2).fdiv 5 + (d : ℤ) - 1
  let doe : ℤ := yoe * 365 + yoe.fdiv 4 - yoe.fdiv 100 + doy
  era * 146097 + doe - 719468

/-- Civil date `(year, month, day)` of a days-since-epoch count (Hinnant's
`civil_from_days`). -/
def civilFromDays (z : ℤ) : ℤ × Nat × Nat :=
  let z' := z + 719468
  let era := z'.fdiv 146097
  let doe := (z' - era * 146097).toNat
  let yoe := (doe - doe / 1460 + doe / 36524 - doe / 146096) / 365
  let doy := doe - (365 * yoe + yoe / 4 - yoe / 100)
  let mp := (5 * doy + 2) / 153
  let d := doy - (153 * mp + 2) / 5 + 1
  let m := if mp < 10 then mp + 3 else mp - 9
  (if m ≤ 2 then era * 400 + (yoe : ℤ) + 1 else era * 400 + (yoe : ℤ), m, d)

/-- chrono `NaiveDate::from_ymd_opt`, as a days-since-epoch count. -/
def from_ymd_opt (y : ℤ) (m d : Nat) : Option ℤ :=
  if 1 ≤ m ∧ m ≤ 12 ∧ 1 ≤ d ∧ d ≤ daysInMonth y m then
    some (daysFromCivil y m d)
  else none

/-- chrono `NaiveTime::from_hms_opt(h, m, 0)`, as seconds into the day. -/
def from_hms_opt (h min : Nat) : Option ℤ :=
  if h < 24 ∧ min < 60 then some ((h : ℤ) * 3600 + (min : ℤ) * 60) else none

/-- Modelled from the spec: the chrono_tz IANA timezone database is external
to the repository; only the zone the claims exercise is included, with its
current fixed UTC offset (America/Sao_Paulo is UTC-03:00, Brazil having no
DST since 2019), so `from_local_datetime(..).single()` always yields exactly
one instant, `naive - offset`. -/
def tzLookup : String → Option ℤ
  | "America/Sao_Paulo" => some (-(3 * 3600))
  | _ => none

/-- The date+time arm of `parse_reset_time`: current year assumed, advanced
one year when the instant is already past. -/
def resolveDateTime (month_str : String) (day hour : Nat)
    (minuteOpt : Option Nat) (am_pm tz_str : String) (now localOff : ℤ) :
    Option ℤ :=
  let minute := minuteOpt.getD 0
  let hour_24 := to_24_hour hour am_pm
  match parse_month month_str with
  | none => none
  | some month =>
    match tzLookup tz_str with
    | none => none
    | some off =>
      let year := (civilFromDays ((now + localOff).fdiv 86400)).1
      match from_ymd_opt year month day, from_hms_opt hour_24 minute with
      | some days, some secs =>
        let tzInstant := days * 86400 + secs - off
        if tzInstant < now then
          match from_ymd_opt (year + 1) month day with
          | some days2 => some (days2 * 86400 + secs - off)
          | none => none
        else some tzInstant
      | _, _ => none

/-- The time-only arm of `parse_reset_time`: today's date in the named zone,
advanced to tomorrow when the time has already passed. -/
def resolveTimeOnly (hour : Nat) (minuteOpt : Option Nat)
    (am_pm tz_str : String) (now : ℤ) : Option ℤ :=
  let minute := minuteOpt.getD 0
  let hour_24 := to_24_hour hour am_pm
  match tzLookup tz_str with
  | none => none
  | some off =>
    match from_hms_opt hour_24 minute with
    | none => none
    | some secs =>
      let today := (now + off).fdiv 86400
      let tzInstant := today * 86400 + secs - off
      if tzInstant ≤ now then some ((today + 1) * 86400 + secs - off)
      else some tzInstant

/-- `parse_reset_time` from `projection.rs`: the date+time shape is tried
first, then the time-only shape; `now` is the evaluation instant and
`localOff` the machine-local UTC offset (used only for `now.year()`). -/
def parse_reset_time (reset_str : String) (now localOff : ℤ) : Option ℤ :=
  match findDateTime reset_str.data with
  | some (month_str, day, hour, minOpt, ap, tz) =>
    resolveDateTime month_str day hour minOpt ap tz now localOff
  | none =>
    match findTimeOnly reset_str.data with
    | some (hour, minOpt, ap, tz) => resolveTimeOnly hour minOpt ap tz now
    | none => none

lemma resolveTimeOnly_isSome (hour : Nat) (minOpt : Option Nat) (ap tz : String)
    (now off secs : ℤ) (hoff : tzLookup tz = some off)
    (hsecs : from_hms_opt (to_24_hour hour ap) (minOpt.getD 0) = some secs) :
    (resolveTimeOnly hour minOpt ap tz now).isSome = true := by
  simp only [resolveTimeOnly, hoff, hsecs]
  split <;> rfl

lemma resolveDateTime_isSome (month_str : String) (day hour : Nat)
    (minOpt : Option Nat) (ap tz : String) (now localOff off secs : ℤ)
    (month : Nat) (hm : parse_month month_str = some month)
    (hoff : tzLookup tz = some off)
    (hsecs : from_hms_opt (to_24_hour hour ap) (minOpt.getD 0) = some secs)
    (hdays : ∀ y : ℤ, (from_ymd_opt y month day).isSome = true) :
    (resolveDateTime month_str day hour minOpt ap tz now localOff).isSome
      = true := by
  simp only [resolveDateTime, hm, hoff, hsecs]
  obtain ⟨d1, hd1⟩ := Option.isSome_iff_exists.mp
    (hdays ((civilFromDays ((now + localOff).fdiv 86400)).1))
  obtain ⟨d2, hd2⟩ := Option.isSome_iff_exists.mp
    (hdays ((civilFromDays ((now + localOff).fdiv 86400)).1 + 1))
  simp only [hd1, hd2]
  split <;> rfl

/-- C8: both reset-string shapes are accepted with minutes optional and
defaulting to 0 — `"6:59pm (America/Sao_Paulo)"` parses to a non-null
instant at every evaluation moment; `"7pm (America/Sao_Paulo)"` resolves to
the same instant as `"7:00pm (America/Sao_Paulo)"` at the same moment; and
both `"Dec 8 at 3:59pm (America/Sao_Paulo)"` and
`"Dec 8 at 4pm (America/Sao_Paulo)"` parse successfully. -/
theorem parse_reset_time_shapes (now localOff : ℤ) :
    (parse_reset_time "6:59pm (America/Sao_Paulo)" now localOff).isSome = true
      ∧ parse_reset_time "7pm (America/Sao_Paulo)" now localOff
          = parse_reset_time "7:00pm (America/Sao_Paulo)" now localOff
      ∧ (parse_reset_time "Dec 8 at 3:59pm (America/Sao_Paulo)" now
          localOff).isSome = true
      ∧ (parse_reset_time "Dec 8 at 4pm (America/Sao_Paulo)" now
          localOff).isSome = true := by
  have hdec8 : ∀ y : ℤ, (from_ymd_opt y 12 8).isSome = true := by
    intro y
    simp [from_ymd_opt, daysInMonth]
  refine ⟨?_, ?_, ?_, ?_⟩
  · simp only [parse_reset_time,
      (by decide : findDateTime "6:59pm (America/Sao_Paulo)".data = none),
      (by decide : findTimeOnly "6:59pm (America/Sao_Paulo)".data
        = some (6, some 59, "pm", "America/Sao_Paulo"))]
    exact resolveTimeOnly_isSome 6 (some 59) "pm" "America/Sao_Paulo" now
      (-(3 * 3600)) 68340 (by decide) (by decide)
  · simp only [parse_reset_time,
      (by decide : findDateTime "7pm (America/Sao_Paulo)".data = none),
      (by decide : findDateTime "7:00pm (America/Sao_Paulo)".data = none),
      (by decide : findTimeOnly "7pm (America/Sao_Paulo)".data
        = some (7, none, "pm", "America/Sao_Paulo")),
      (by decide : findTimeOnly "7:00pm (America/Sao_Paulo)".data
        = some (7, some 0, "pm", "America/Sao_Paulo"))]
    rfl
  · simp only [parse_reset_time,
      (by decide : findDateTime "Dec 8 at 3:59pm (America/Sao_Paulo)".data
        = some ("Dec", 8, 3, some 59, "pm", "America/Sao_Paulo"))]
    exact resolveDateTime_isSome "Dec" 8 3 (some 59) "pm" "America/Sao_Paulo"
      now localOff (-(3 * 3600)) 57540 12 (by decide) (by decide) (by decide)
      hdec8
  · simp only [parse_reset_time,
      (by decide : findDateTime "Dec 8 at 4pm (America/Sao_Paulo)".data
        = some ("Dec", 8, 4, none, "pm", "America/Sao_Paulo"))]
    exact resolveDateTime_isSome "Dec" 8 4 none "pm" "America/Sao_Paulo"
      now localOff (-(3 * 3600)) 57600 12 (by decide) (by decide) (by decide)
      hdec8

/-! ### Codex `/status` parsing (`parse_codex_output` in `codex.rs`)

The line regex `(?i)(5h limit|weekly limit):.*?(\d+)%\s+left\s*\(resets\s+([^\x29]+)\x29`
is embedded as an explicit matcher: the `(?i)` flag makes every literal
case-insensitive, `.*?` is lazy and does not cross newlines, and
`captures_iter` resumes after the end of each match. -/

/-- `UsageData` from `usage.rs`, including the codex fields populated by
`codex.rs`. -/
structure UsageData where
  current_session_percent : Option ℚ
  current_session_reset : Option String
  current_week_all_models_percent : Option ℚ
  current_week_all_models_reset : Option String
  current_week_sonnet_percent : Option ℚ
  current_week_sonnet_reset : Option String
  extra_usage_enabled : Bool
  codex_five_hour_left : Option ℚ
  codex_five_hour_reset : Option String
  codex_week_left : Option ℚ
  codex_week_reset : Option String
deriving DecidableEq, Repr

/-- `UsageData::new` (all fields unobserved). -/
def UsageData.new : UsageData :=
  ⟨none, none, none, none, none, none, false, none, none, none, none⟩

/-- Case-insensitive literal match, returning the rest. -/
def dropLitCI : List Char → List Char → Option (List Char)
  | [], cs => some cs
  | l :: ls, c :: cs => if asciiLower c = asciiLower l then dropLitCI ls cs else none
  | _ :: _, [] => none

/-- Regex `(\d+)` (maximal digit run, at least one; the following `%` is not a
digit, so maximal munch is faithful), with its numeric value. -/
def takeDigits (cs : List Char) : Option (Nat × List Char) :=
  let run := cs.takeWhile isDigitChar
  if run.isEmpty then none
  else some (run.foldl (fun acc c => acc * 10 + digitVal c) 0,
    cs.dropWhile isDigitChar)

/-- Rust `str::trim` on a character list. -/
def trimChars (cs : List Char) : List Char :=
  ((cs.dropWhile fun c => c.isWhitespace).reverse.dropWhile
    fun c => c.isWhitespace).reverse

/-- Regex `(\d+)%\s+left\s*\(resets\s+([^\x29]+)\x29` — the fixed tail of the
codex line pattern, returning percent, raw reset capture and the rest of the
input after the match. -/
def matchCodexTail (cs : List Char) : Option (Nat × List Char × List Char) :=
  match takeDigits cs with
  | none => none
  | some (pct, cs1) =>
    match cs1 with
    | '%' :: cs2 =>
      match dropSpaces1 cs2 with
      | none => none
      | some cs3 =>
        match dropLitCI ['l', 'e', 'f', 't'] cs3 with
        | none => none
        | some cs4 =>
          match dropSpaces cs4 with
          | '(' :: cs5 =>
            match dropLitCI ['r', 'e', 's', 'e', 't', 's'] cs5 with
            | none => none
            | some cs6 =>
              match dropSpaces1 cs6 with
              | none => none
              | some cs7 =>
                let cap := cs7.takeWhile (fun c => c ≠ ')')
                match cs7.dropWhile (fun c => c ≠ ')') with
                | ')' :: rest =>
                  if cap.isEmpty then none else some (pct, cap, rest)
                | _ => none
          | _ => none
    | _ => none

/-- Lazy `.*?` (never crossing a newline) followed by the fixed tail: the
tail is tried at the current position first, then one more character is
consumed. -/
def matchCodexAfterColon : List Char → Option (Nat × List Char × List Char)
  | [] => none
  | c :: cs =>
    match matchCodexTail (c :: cs) with
    | some r => some r
    | none => if c = '\n' then none else matchCodexAfterColon cs

/-- The full codex line pattern anchored at the current position: one of the
two labels (alternation order as written, case-insensitive, capturing the
original text), a colon, then the lazy gap and tail. -/
def matchCodexAt (cs : List Char) : Option (String × Nat × List Char × List Char) :=
  match
    (match dropLitCI ['5', 'h', ' ', 'l', 'i', 'm', 'i', 't'] cs with
      | some rest => some (String.mk (cs.take 8), rest)
      | none =>
        match dropLitCI
            ['w', 'e', 'e', 'k', 'l', 'y', ' ', 'l', 'i', 'm', 'i', 't'] cs with
        | some rest => some (String.mk (cs.take 12), rest)
        | none => none)
  with
  | none => none
  | some (label, rest) =>
    match rest with
    | ':' :: rest2 =>
      match matchCodexAfterColon rest2 with
      | some (pct, cap, after) => some (label, pct, cap, after)
      | none => none
    | _ => none

/-- Leftmost match of the codex line pattern. -/
def findCodex : List Char → Option (String × Nat × List Char × List Char)
  | [] => none
  | c :: cs =>
    match matchCodexAt (c :: cs) with
    | some r => some r
    | none => findCodex cs

/-- `captures_iter`: successive non-overlapping leftmost matches.  The
pattern always consumes at least one character, so the input length is
enough fuel. -/
def codexCaptures : Nat → List Char → List (String × Nat × List Char)
  | 0, _ => []
  | fuel + 1, cs =>
    match findCodex cs with
    | some (label, pct, cap, rest) => (label, pct, cap) :: codexCaptures fuel rest
    | none => []

/-- Rust `str::contains` on character lists. -/
def containsSub : List Char → List Char → Bool
  | hay@(_ :: rest), pat => pat.isPrefixOf hay || containsSub rest pat
  | [], pat => pat.isEmpty

/-- `parse_codex_output` from `codex.rs` (logging elided; the `anyhow::Result`
becomes an `Except`). -/
def parse_codex_output (raw_output : String) : Except String UsageData :=
  if containsSub (lowerStr raw_output).data
      "cursor position could not be read".data then
    Except.error "Codex CLI failed to read cursor position (terminal emulation)"
  else
    let caps := codexCaptures raw_output.data.length raw_output.data
    Except.ok (caps.foldl
      (fun data cap =>
        match lowerStr cap.1 with
        | "5h limit" =>
          { data with
            codex_five_hour_left := some ((cap.2.1 : ℚ))
            codex_five_hour_reset := some (String.mk (trimChars cap.2.2)) }
        | "weekly limit" =>
          { data with
            codex_week_left := some ((cap.2.1 : ℚ))
            codex_week_reset := some (String.mk (trimChars cap.2.2)) }
        | _ => data)
      UsageData.new)

/-- C9: parsing the sample `/status` text yields five-hour-left 99 with reset
string "13:35" and weekly-left 80 with reset string "13:17". -/
theorem parse_codex_output_sample :
    parse_codex_output
        "5h limit:... 99% left (resets 13:35)\nWeekly limit:... 80% left (resets 13:17)"
      = Except.ok { UsageData.new with
          codex_five_hour_left := some 99
          codex_five_hour_reset := some "13:35"
          codex_week_left := some 80
          codex_week_reset := some "13:17" } := by rfl

end Notifai
